import Mathlib

/-!
Verification of the pragmash front end (lexer, syntax-line assembler,
condition evaluator, numeric helpers) against its specification.

The Go sources are embedded shallowly: the mutable `bytes.Buffer` cursor
becomes explicit `List Char` state passing, fallible functions return
`Except Err`, and the recursive token reader takes a fuel parameter
(the artificial `Err.fuelExhausted` outcome marks fuel running out and
never corresponds to a behaviour of the source).
-/

namespace Pragmash

/-- Parse-time and evaluation-time error kinds of the lexer
(errors.go plus the ad-hoc `errors.New` sites in syntax.go). -/
inductive Err where
  | eof
  | fuelExhausted
  | unexpectedCloseParen
  | missingCloseParen
  | emptyParens
  | missingWhitespace
  | missingEndQuote
  | escapeUnderflow
  | invalidEscape (c : Char)
  | numericParse
  | internalEmptyLine
  | missingOpenCurlyBrace
  deriving DecidableEq, Repr

/-- A Token is either a nested command (group) or a string literal
(syntax.go, type Token). A group's `Text` field is empty and its `Bare`
field is false (the Go zero values), see `Token.text` and `Token.bare`. -/
inductive Token where
  | lit (text : String) (bare : Bool)
  | group (command : List Token)
  deriving Repr

/-- The `Text` field of a Go Token: empty for a nested command. -/
def Token.text : Token → String
  | .lit t _ => t
  | .group _ => ""

/-- The `Bare` field of a Go Token: groups are built as
`Token{tokens, "", false}`, so their `Bare` field is false. -/
def Token.bare : Token → Bool
  | .lit _ b => b
  | .group _ => false

/-- The `Command` field of a Go Token: nil (here `none`) for a literal. -/
def Token.command : Token → Option (List Token)
  | .lit _ _ => none
  | .group c => some c

/-- Go's unicode.IsSpace: the White_Space property
(transcribed from the unicode package's White_Space range table). -/
def goIsSpace (c : Char) : Bool :=
  c.toNat = 0x09 || c.toNat = 0x0A || c.toNat = 0x0B || c.toNat = 0x0C ||
  c.toNat = 0x0D || c.toNat = 0x20 || c.toNat = 0x85 || c.toNat = 0xA0 ||
  c.toNat = 0x1680 || (0x2000 ≤ c.toNat && c.toNat ≤ 0x200A) ||
  c.toNat = 0x2028 || c.toNat = 0x2029 || c.toNat = 0x202F ||
  c.toNat = 0x205F || c.toNat = 0x3000

/-- The ranges of the Unicode decimal-digit category Nd
(transcribed from the unicode package's Nd range table). -/
def ndRanges : List (Nat × Nat) :=
  [(0x0030, 0x0039), (0x0660, 0x0669), (0x06F0, 0x06F9), (0x07C0, 0x07C9),
   (0x0966, 0x096F), (0x09E6, 0x09EF), (0x0A66, 0x0A6F), (0x0AE6, 0x0AEF),
   (0x0B66, 0x0B6F), (0x0BE6, 0x0BEF), (0x0C66, 0x0C6F), (0x0CE6, 0x0CEF),
   (0x0D66, 0x0D6F), (0x0DE6, 0x0DEF), (0x0E50, 0x0E59), (0x0ED0, 0x0ED9),
   (0x0F20, 0x0F29), (0x1040, 0x1049), (0x1090, 0x1099), (0x17E0, 0x17E9),
   (0x1810, 0x1819), (0x1946, 0x194F), (0x19D0, 0x19D9), (0x1A80, 0x1A89),
   (0x1A90, 0x1A99), (0x1B50, 0x1B59), (0x1BB0, 0x1BB9), (0x1C40, 0x1C49),
   (0x1C50, 0x1C59), (0xA620, 0xA629), (0xA8D0, 0xA8D9), (0xA900, 0xA909),
   (0xA9D0, 0xA9D9), (0xA9F0, 0xA9F9), (0xAA50, 0xAA59), (0xABF0, 0xABF9),
   (0xFF10, 0xFF19), (0x104A0, 0x104A9), (0x10D30, 0x10D39),
   (0x11066, 0x1106F), (0x110F0, 0x110F9), (0x11136, 0x1113F),
   (0x111D0, 0x111D9), (0x112F0, 0x112F9), (0x11450, 0x11459),
   (0x114D0, 0x114D9), (0x11650, 0x11659), (0x116C0, 0x116C9),
   (0x11730, 0x11739), (0x118E0, 0x118E9), (0x11950, 0x11959),
   (0x11C50, 0x11C59), (0x11D50, 0x11D59), (0x11DA0, 0x11DA9),
   (0x16A60, 0x16A69), (0x16AC0, 0x16AC9), (0x16B50, 0x16B59),
   (0x1D7CE, 0x1D7FF), (0x1E140, 0x1E149), (0x1E2F0, 0x1E2F9),
   (0x1E950, 0x1E959), (0x1FBF0, 0x1FBF9)]

/-- Go's unicode.IsDigit: membership in the decimal-digit category Nd. -/
def goIsDigit (c : Char) : Bool :=
  ndRanges.any fun p => p.1 ≤ c.toNat && c.toNat ≤ p.2

/-- The value of one ASCII digit or letter for strconv.ParseUint. -/
def goDigitVal (c : Char) : Option Nat :=
  if '0' ≤ c ∧ c ≤ '9' then some (c.toNat - '0'.toNat)
  else if 'a' ≤ c ∧ c ≤ 'z' then some (c.toNat - 'a'.toNat + 10)
  else if 'A' ≤ c ∧ c ≤ 'Z' then some (c.toNat - 'A'.toNat + 10)
  else none

/-- Go's strconv.ParseUint on a digit string: every character must be a
digit below the base and the value must fit in `bitSize` bits; any
violation is a parse error, modelled as `none`. -/
def goParseUint (base bitSize : Nat) (s : List Char) : Option Nat := do
  if s.isEmpty then none
  else
    let val ← s.foldlM (fun acc c => do
      let d ← goDigitVal c
      if d < base then some (acc * base + d) else none) 0
    if val < 2 ^ bitSize then some val else none

/-- Go's rune-to-UTF-8 behaviour at bytes.Buffer.WriteRune after the
int32 cast `rune(res)`: a value that is not a valid Unicode scalar
(surrogates, values past U+10FFFF, and values whose int32 cast is
negative) is written as the replacement character U+FFFD. -/
def mkRune (n : Nat) : Char :=
  if n.isValidChar then Char.ofNat n else '�'

/-- Embedding of readNumericEscape (syntax.go): read exactly `charCount`
characters (running out of input is the underflow error) and parse them
as hexadecimal with bit size `charCount*4`. -/
def readNumericEscape (charCount : Nat) (l : List Char) :
    Except Err (Char × List Char) :=
  if l.length < charCount then .error .escapeUnderflow
  else
    match goParseUint 16 (charCount * 4) (l.take charCount) with
    | none => .error .numericParse
    | some v => .ok (mkRune v, l.drop charCount)

/-- The digits accepted by readOctalEscape's loop: `r >= '0' && r < '8'`. -/
def isOctalDigit (c : Char) : Bool := '0' ≤ c && c < '8'

/-- Embedding of readOctalEscape (syntax.go): take up to three octal
digits, stopping early at a non-octal character or the end of input; no
digit at all is the underflow error; the digits parse in base 8 with bit
size 8 (so values of 0o400 and above are a parse error). -/
def readOctalEscape (l : List Char) : Except Err (Char × List Char) :=
  let digits := (l.take 3).takeWhile isOctalDigit
  if digits.isEmpty then .error .escapeUnderflow
  else
    match goParseUint 8 8 digits with
    | none => .error .numericParse
    | some v => .ok (mkRune v, l.drop digits.length)

/-- The characters that a backslash passes through literally
(the first case of readEscapeSequence's switch). -/
def passthroughChars : List Char := ['(', ')', '?', '\'', '"', ' ', '\\']

/-- Embedding of readEscapeSequence (syntax.go): dispatch on the first
character after the backslash; an exhausted input is the underflow
error; a decimal digit other than 8 or 9 re-enters readOctalEscape
(unread); everything else is an invalid-escape error. -/
def readEscapeSequence : List Char → Except Err (Char × List Char)
  | [] => .error .escapeUnderflow
  | c :: cs =>
    if c ∈ passthroughChars then .ok (c, cs)
    else if c = 'a' then .ok ('\x07', cs)
    else if c = 'b' then .ok ('\x08', cs)
    else if c = 'f' then .ok ('\x0C', cs)
    else if c = 'n' then .ok ('\n', cs)
    else if c = 'r' then .ok ('\x0D', cs)
    else if c = 't' then .ok ('\t', cs)
    else if c = 'v' then .ok ('\x0B', cs)
    else if c = 'x' then readNumericEscape 2 cs
    else if c = 'u' then readNumericEscape 4 cs
    else if c = 'U' then readNumericEscape 8 cs
    else if !goIsDigit c || c = '8' || c = '9' then .error (.invalidEscape c)
    else readOctalEscape (c :: cs)

/-- Embedding of readSpace (syntax.go): an empty buffer reports success;
otherwise consume leading whitespace and report whether any was seen. -/
def readSpace (l : List Char) : Bool × List Char :=
  if l.isEmpty then (true, l)
  else (!(l.takeWhile goIsSpace).isEmpty, l.dropWhile goIsSpace)

/-- Embedding of readQuotedString (syntax.go): read until the closing
quote, decoding escapes after each backslash; exhausted input is the
missing-string-terminator error. Fueled to mirror the Go loop. -/
def readQuotedString : Nat → Char → List Char →
    Except Err (List Char × List Char)
  | 0, _, _ => .error .fuelExhausted
  | _ + 1, _, [] => .error .missingEndQuote
  | fuel + 1, q, c :: cs =>
    if c = q then .ok ([], cs)
    else if c = '\\' then
      match readEscapeSequence cs with
      | .error e => .error e
      | .ok (seq, rest) =>
        match readQuotedString fuel q rest with
        | .error e => .error e
        | .ok (s, rest2) => .ok (seq :: s, rest2)
    else
      match readQuotedString fuel q cs with
      | .error e => .error e
      | .ok (s, rest2) => .ok (c :: s, rest2)

/-- Embedding of readBareString's loop (syntax.go): accumulate
characters until an unconsumed whitespace or close paren; a backslash
decodes an escape and clears the bare flag. Returns the accumulated
characters, the bare flag, and the unconsumed rest. -/
def readBareStringAux : Nat → List Char →
    Except Err (List Char × Bool × List Char)
  | 0, _ => .error .fuelExhausted
  | _ + 1, [] => .ok ([], true, [])
  | fuel + 1, c :: cs =>
    if goIsSpace c || c = ')' then .ok ([], true, c :: cs)
    else if c = '\\' then
      match readEscapeSequence cs with
      | .error e => .error e
      | .ok (seq, rest) =>
        match readBareStringAux fuel rest with
        | .error e => .error e
        | .ok (s, _, rest2) => .ok (seq :: s, false, rest2)
    else
      match readBareStringAux fuel cs with
      | .error e => .error e
      | .ok (s, b, rest2) => .ok (c :: s, b, rest2)

/-- The check after readNestedCommand's loop (syntax.go): an immediately
empty group is the empty-parens error. -/
def nestedFinish (acc : List Token) : Except Err (List Token) :=
  if acc.isEmpty then .error .emptyParens else .ok acc

mutual

/-- Embedding of readNextToken (syntax.go): dispatch on the first
character. The returned list is the buffer state after the call; it is
meaningful for the two recoverable errors (`eof`, raised with nothing
consumed, and `unexpectedCloseParen`, raised with the close paren
consumed), matching how the Go callers observe the mutated buffer. -/
def readNextToken : Nat → List Char → Except Err Token × List Char
  | 0, l => (.error .fuelExhausted, l)
  | _ + 1, [] => (.error .eof, [])
  | fuel + 1, c :: cs =>
    if c = '"' then
      match readQuotedString fuel '"' cs with
      | .error e => (.error e, cs)
      | .ok (s, rest) => (.ok (.lit (String.mk s) false), rest)
    else if c = '\'' then
      match readQuotedString fuel '\'' cs with
      | .error e => (.error e, cs)
      | .ok (s, rest) => (.ok (.lit (String.mk s) false), rest)
    else if c = '(' then
      match readNestedCommand fuel cs with
      | (.error e, rest) => (.error e, rest)
      | (.ok toks, rest) => (.ok (.group toks), rest)
    else if c = ')' then (.error .unexpectedCloseParen, cs)
    else
      match readBareStringAux fuel (c :: cs) with
      | .error e => (.error e, c :: cs)
      | .ok (s, b, rest) => (.ok (.lit (String.mk s) b), rest)

/-- Embedding of readNestedCommand (syntax.go): skip leading whitespace
(result ignored), then run the token loop. -/
def readNestedCommand : Nat → List Char →
    Except Err (List Token) × List Char
  | 0, l => (.error .fuelExhausted, l)
  | fuel + 1, l => readNestedLoop fuel (readSpace l).2 []

/-- Embedding of readNestedCommand's loop (syntax.go): read a token (an
unexpected-close-paren outcome terminates the group, end of input is the
missing-close-paren error); then a close paren may follow immediately,
otherwise whitespace is mandatory before the next token. -/
def readNestedLoop : Nat → List Char → List Token →
    Except Err (List Token) × List Char
  | 0, l, _ => (.error .fuelExhausted, l)
  | fuel + 1, l, acc =>
    match readNextToken fuel l with
    | (.error .unexpectedCloseParen, l1) => (nestedFinish acc, l1)
    | (.error .eof, l1) => (.error .missingCloseParen, l1)
    | (.error e, l1) => (.error e, l1)
    | (.ok tok, l1) =>
      let acc1 := acc ++ [tok]
      match l1 with
      | ')' :: rest => (nestedFinish acc1, rest)
      | _ =>
        let sp := readSpace l1
        if sp.1 then readNestedLoop fuel sp.2 acc1
        else (.error .missingWhitespace, sp.2)

end

/-- A SyntaxLine is a logical line which has been parsed (syntax.go). -/
structure SyntaxLine where
  blockOpen : Bool
  blockClose : Bool
  tokens : List Token
  number : Int
  deriving Repr

/-- The keywords that may open a block (syntax.go). -/
def BlockInitiatingKeywords : List String :=
  ["if", "else", "while", "try", "for", "def"]

/-- The isOpenKeyword computation of processCurlyBraces: the (possibly
already stripped) token list starts with a bare block-initiating
keyword. -/
def isOpenKeywordTok : List Token → Bool
  | [] => false
  | t :: _ => t.bare && BlockInitiatingKeywords.contains t.text

/-- Embedding of processCurlyBraces (syntax.go): strip a leading bare
close brace, then, if the first remaining token is a bare keyword,
require a trailing token whose Text field is an open brace (the Go code
checks only the Text field here, not the Bare flag) and strip it. The
Go function panics on an empty token list; that is modelled by the
distinguished `internalEmptyLine` outcome. -/
def processCurlyBraces (l : SyntaxLine) : Except Err SyntaxLine :=
  match l.tokens with
  | [] => .error .internalEmptyLine
  | t0 :: rest =>
    let stripClose := t0.text = "\x7d" && t0.bare
    let toks := if stripClose then rest else t0 :: rest
    let bClose := if stripClose then true else l.blockClose
    if isOpenKeywordTok toks then
      if (toks.getLast?.map Token.text) ≠ some "\x7b" then
        .error .missingOpenCurlyBrace
      else .ok ⟨true, bClose, toks.dropLast, l.number⟩
    else .ok ⟨l.blockOpen, bClose, toks, l.number⟩

/-- Embedding of parseLine's token loop (syntax.go): while the buffer is
non-empty, read a token, then require whitespace separation (an empty
buffer counts as separation). -/
def parseLineTokens : Nat → List Char → List Token → Except Err (List Token)
  | 0, _, _ => .error .fuelExhausted
  | _ + 1, [], acc => .ok acc
  | fuel + 1, c :: cs, acc =>
    match readNextToken fuel (c :: cs) with
    | (.error e, _) => .error e
    | (.ok tok, l1) =>
      let sp := readSpace l1
      if sp.1 then parseLineTokens fuel sp.2 (acc ++ [tok])
      else .error .missingWhitespace

/-- Embedding of parseLine (syntax.go): lex the whole line, then apply
the curly-brace post-processing. -/
def parseLine (fuel : Nat) (text : String) (num : Int) :
    Except Err SyntaxLine :=
  match parseLineTokens fuel text.data [] with
  | .error e => .error e
  | .ok toks => processCurlyBraces ⟨false, false, toks, num⟩

/-! ### Condition evaluator (condition.go)

The operands of a Condition are Runnables; the claims quantify over
their already-evaluated string values, so a condition is embedded as the
list of its operands' strings. A Value is a string. -/

/-- Modelled from the spec: NewValueBool(true) produces the fixed truthy
literal (value.go is not under src/); false produces the empty string. -/
def boolValue (b : Bool) : String := if b then "true" else ""

/-- Modelled from the spec: a Value's Bool() method applies the
non-empty-string-is-true rule (value.go is not under src/). -/
def valueBool (s : String) : Bool := !s.isEmpty

/-- Embedding of Condition.Run (condition.go) over the operands' string
values: no operand is true; a single operand returns its own value;
otherwise return true when every later operand equals the first, and
the empty value as soon as one differs. -/
def conditionRun : List String → String
  | [] => boolValue true
  | [s] => s
  | s :: rest => if rest.all (fun x => x == s) then boolValue true else ""

/-- The truth value of a Condition: its result's truthiness. -/
def conditionTrue (ops : List String) : Bool := valueBool (conditionRun ops)

/-- Embedding of NotCondition.Run (condition.go): evaluate the positive
condition and return the complemented BoolValue. -/
def notConditionRun (ops : List String) : String :=
  boolValue (!(valueBool (conditionRun ops)))

/-- The truth value of a NotCondition. -/
def notConditionTrue (ops : List String) : Bool :=
  valueBool (notConditionRun ops)

/-! ### Numeric tower (modelled) and the standard math module

The Number type itself (number.go) is not under src/; it is modelled
from the spec: a tagged union of an arbitrary-precision integer, an
exact reduced rational (canonically never integer-valued), and an
inexact double. A double's value is idealized as the exact rational it
denotes, so float arithmetic in the model is exact rational arithmetic;
this is faithful on the concrete inputs the claims are settled at. -/

/-- Modelled from the spec: the Number union (number.go not in src/). -/
inductive Number where
  | int (v : Int)
  | rat (q : Rat)
  | float (x : Rat)
  deriving DecidableEq, Repr

/-- The rational value a Number denotes. -/
def Number.val : Number → Rat
  | .int v => (v : Rat)
  | .rat q => q
  | .float x => x

/-- Modelled from the spec: asInteger / Number.Int() yields the exact
integer only for the integer variant and nil (`none`) otherwise. -/
def Number.Int : Number → Option Int
  | .int v => some v
  | _ => none

/-- Modelled from the spec: asFloat / Number.Float() converts to a
double, idealized here as the denoted rational value. -/
def Number.Float (n : Number) : Rat := n.val

/-- True exactly for the inexact (float) variant. -/
def Number.isFloat : Number → Bool
  | .float _ => true
  | _ => false

/-- True exactly for the exact integer variant. -/
def Number.isExactInt : Number → Bool
  | .int _ => true
  | _ => false

/-- Modelled from the spec: canonical form of an exact rational result —
an integer-valued rational becomes the integer variant. -/
def mkExactNumber (q : Rat) : Number :=
  if q.den = 1 then .int q.num else .rat q

/-- Modelled from the spec: CompareNumbers returns -1, 0 or 1; both
operands exact compare as exact rationals, otherwise by float value
(identical on the idealized model). -/
def CompareNumbers (a b : Number) : Int :=
  if a.val < b.val then -1 else if a.val = b.val then 0 else 1

/-- Modelled from the spec: multiplication; any inexact operand makes
the result inexact, exact operands produce a canonical exact result. -/
def MultiplyNumbers (a b : Number) : Number :=
  if a.isFloat || b.isFloat then .float (a.val * b.val)
  else mkExactNumber (a.val * b.val)

/-- Embedding of StdMath.Abs (std_math.go): negative numbers are
multiplied by -1, all others are returned unchanged. -/
def StdMath.Abs (num : Number) : Number :=
  if CompareNumbers num (.int 0) = -1 then MultiplyNumbers (.int (-1)) num
  else num

/-- Embedding of StdMath.Floor (std_math.go): math.Floor the double
(exact on doubles, modelled as the rational floor), then extract the
numerator of the resulting integer-valued big.Rat. -/
def StdMath.Floor (f : Rat) : Number := .int ⌊f⌋

/-- Embedding of StdMath.Ceil (std_math.go): like Floor with
math.Ceil. -/
def StdMath.Ceil (f : Rat) : Number := .int ⌈f⌉

/-- Embedding of StdMath.Round (std_math.go): math.Floor(f + 0.5); the
float addition is idealized as exact rational addition. -/
def StdMath.Round (f : Rat) : Number := .int ⌊f + 1 / 2⌋

/-- The loop of StdMath.Factorial (std_math.go): `res := 1; for i := 2;
i < int(n.Float()); i++ { res *= i }` — the product of the integers i
with 2 ≤ i < b. -/
def factorialLoop (b : Int) : Int :=
  (List.range' 2 (b - 2).toNat).foldl (fun res i => res * (i : Int)) 1

/-- The three outcomes of StdMath.Factorial: an exact value, the
floating Gamma-function fallback applied to n.Float() (its float
computation and finiteness check are not modelled further), or the
argument-too-big error. -/
inductive FactorialResult where
  | value (n : Number)
  | gammaOf (x : Rat)
  | argTooBig
  deriving DecidableEq, Repr

/-- Embedding of StdMath.Factorial (std_math.go): a nil Int() or a
negative value falls back to the Gamma function; a value at or above
65536 is the argument-too-big error; otherwise the integer loop runs up
to int(n.Float()) exclusive (for the nonnegative integers that reach
this branch, the truncation int(...) is the floor). -/
def StdMath.Factorial (n : Number) : FactorialResult :=
  if n.Int = none || CompareNumbers n (.int 0) < 0 then .gammaOf n.Float
  else if CompareNumbers n (.int 65536) ≥ 0 then .argTooBig
  else .value (.int (factorialLoop ⌊n.Float⌋))

/-- Embedding of StdMath.Mod (std_math.go): with two integer variants,
big.Int.Mod (Euclidean remainder, a run-time panic on a zero modulus,
modelled as `none`); otherwise the floored floating remainder
`f1 - floor(f1/f2)*f2` (a zero modulus gives an IEEE NaN there, which
the rational model cannot denote, also `none`). -/
def StdMath.Mod (num modulus : Number) : Option Number :=
  match num.Int, modulus.Int with
  | some i1, some i2 =>
    if i2 = 0 then none else some (.int (i1 % i2))
  | _, _ =>
    let f1 := num.Float
    let f2 := modulus.Float
    if f2 = 0 then none
    else some (.float (f1 - (⌊f1 / f2⌋ : Rat) * f2))

/-- Embedding of StdOps.Subscript (std_ops.go): a reported out-of-bounds
error naming the index, or the list element as a string Value. -/
def StdOps.Subscript (strings : List String) (index : Int) :
    Except String String :=
  if h : index < 0 ∨ (strings.length : Int) ≤ index then
    .error ("subscript out of bounds: " ++ toString index)
  else .ok (strings.get ⟨index.toNat, by omega⟩)

/-- Embedding of StdString.Substr (std_math.go, second file part): an
empty string returns immediately; more than one trailing end argument
is an error; start is clamped into [0, len] and end into [start, len];
the string is modelled as the list of its bytes. -/
def StdString.Substr (s : List Char) (start : Int) (e : List Int) :
    Except String (List Char) :=
  if s.length = 0 then .ok []
  else if e.length > 1 then .error "expected 2 or 3 arguments"
  else
    let endv : Int := if e.length = 1 then e.headI else (s.length : Int)
    let start1 : Int :=
      if start < 0 then 0
      else if start > (s.length : Int) then (s.length : Int) else start
    let end1 : Int :=
      if endv < start1 then start1
      else if endv > (s.length : Int) then (s.length : Int) else endv
    .ok ((s.drop start1.toNat).take (end1 - start1).toNat)

/-! ### Theorems -/

/-- C1: on the exact integer path the code computes the product of the
integers from 2 to n-1 — `factorial(5)` evaluates to the exact integer
24, which is 4! and not the 120 the claim (and the function's own doc
comment) requires; the ceiling and the Gamma fallback behave as the
claim states. -/
theorem factorial_five_returns_24 :
    StdMath.Factorial (.int 5) = .value (.int 24)
      ∧ FactorialResult.value (.int 24) ≠ .value (.int 120)
      ∧ StdMath.Factorial (.int 65536) = .argTooBig
      ∧ StdMath.Factorial (.int (-1)) = .gammaOf (-1)
      ∧ StdMath.Factorial (.rat (3 / 2)) = .gammaOf (3 / 2) := by
  refine ⟨rfl, ?_, rfl, by decide, ?_⟩
  · intro h
    simp at h
  · simp [StdMath.Factorial, Number.Int, Number.Float, Number.val]

/-- C5: the input "(add 1 2)" parses to one group token with the three
bare literal children "add", "1", "2"; the immediately empty group "()"
fails with the empty-parens error; "(add 1" (input exhausted before a
closing paren) fails with the missing-close-paren error. -/
theorem nested_group_examples :
    parseLine 100 "(add 1 2)" 1 =
      .ok ⟨false, false,
        [.group [.lit "add" true, .lit "1" true, .lit "2" true]], 1⟩
      ∧ parseLine 100 "()" 1 = .error .emptyParens
      ∧ parseLine 100 "(add 1" 1 = .error .missingCloseParen := by
  exact ⟨rfl, rfl, rfl⟩

theorem valueBool_boolValue (b : Bool) : valueBool (boolValue b) = b := by
  cases b <;> rfl

/-- C2: a Condition over zero operands is true; over one operand it is
true iff the operand's string is non-empty; over two or more operands it
is true iff every operand's string equals the first one's; and
NotCondition always returns the boolean complement of Condition. -/
theorem condition_truth_table (ops : List String) (s : String) :
    conditionTrue [] = true
      ∧ conditionTrue [s] = !s.isEmpty
      ∧ (2 ≤ ops.length →
          (conditionTrue ops = true ↔ ∀ x ∈ ops, x = ops.headI))
      ∧ notConditionTrue ops = !conditionTrue ops := by
  refine ⟨rfl, rfl, ?_, ?_⟩
  · intro hlen
    match ops with
    | [] => simp at hlen
    | [a] => simp at hlen
    | a :: b :: t =>
      have hrun : conditionRun (a :: b :: t) =
          if (b :: t).all (fun x => x == a) then boolValue true else "" := rfl
      simp only [conditionTrue, hrun, List.headI]
      cases hall : (b :: t).all (fun x => x == a)
      · rw [if_neg (by simp)]
        rw [show valueBool "" = false from rfl]
        simp only [Bool.false_eq_true, false_iff]
        intro hforall
        obtain ⟨x, hx, hxne⟩ := List.all_eq_false.mp hall
        exact hxne (by simp [hforall x (List.mem_cons_of_mem a hx)])
      · rw [if_pos rfl, valueBool_boolValue]
        have hall2 := List.all_eq_true.mp hall
        constructor
        · intro _ x hx
          rcases List.mem_cons.mp hx with hx | hx
          · exact hx
          · simpa using hall2 x hx
        · intro _
          rfl
  · rw [notConditionTrue, notConditionRun, valueBool_boolValue, conditionTrue]

/-- Witness for C2 at the spec's example operand lists. -/
theorem condition_truth_table_witness :
    (conditionTrue ["a", "a", "b"] = true ↔
        ∀ x ∈ ["a", "a", "b"], x = List.headI ["a", "a", "b"])
      ∧ notConditionTrue ["a", "a", "b"] = !conditionTrue ["a", "a", "b"] :=
  ⟨(condition_truth_table ["a", "a", "b"] "a").2.2.1 (by decide),
   (condition_truth_table ["a", "a", "b"] "a").2.2.2⟩

/-- C3 counterexample: the line `if "{"` ends in a quoted (non-bare)
open-brace token, yet the assembler accepts it and sets blockOpen,
because processCurlyBraces checks only the trailing token's Text field;
the claim requires this line to fail with the missing-open-curly-brace
error. -/
theorem nonbare_open_brace_accepted :
    parseLine 100 "if \"\x7b\"" 1 = .ok ⟨true, false, [.lit "if" true], 1⟩
      ∧ parseLine 100 "if \"\x7b\"" 1 ≠ .error .missingOpenCurlyBrace := by
  refine ⟨rfl, ?_⟩
  intro h
  rw [show parseLine 100 "if \"\x7b\"" 1 =
    .ok ⟨true, false, [.lit "if" true], 1⟩ from rfl] at h
  exact Except.noConfusion h

/-- C3 (amended): the assembler strips a first bare close brace setting
blockClose; then, if the first remaining token is a bare literal equal
to a block keyword, the line must end in a token whose text is an open
brace — bareness of that trailing token is not checked — which is
stripped with blockOpen set, and the missing-open-curly-brace error is
reported when absent; "} else {" parses to blockClose, blockOpen and
the single token "else". -/
theorem curly_brace_assembly (bo bc : Bool) (t0 : Token)
    (rest : List Token) (t1 : List Token) (bc1 : Bool)
    (hstrip : t1 = if t0.text = "\x7d" && t0.bare then rest else t0 :: rest)
    (hbc : bc1 = if t0.text = "\x7d" && t0.bare then true else bc)
    (num : Int) :
    (isOpenKeywordTok t1 = true →
        (t1.getLast?.map Token.text = some "\x7b" →
          processCurlyBraces ⟨bo, bc, t0 :: rest, num⟩ =
            .ok ⟨true, bc1, t1.dropLast, num⟩)
        ∧ (t1.getLast?.map Token.text ≠ some "\x7b" →
            processCurlyBraces ⟨bo, bc, t0 :: rest, num⟩ =
              .error .missingOpenCurlyBrace))
      ∧ (isOpenKeywordTok t1 = false →
          processCurlyBraces ⟨bo, bc, t0 :: rest, num⟩ =
            .ok ⟨bo, bc1, t1, num⟩)
      ∧ parseLine 100 "\x7d else \x7b" 7 =
          .ok ⟨true, true, [.lit "else" true], 7⟩ := by
  have hpcb : processCurlyBraces ⟨bo, bc, t0 :: rest, num⟩ =
      if isOpenKeywordTok t1 then
        (if t1.getLast?.map Token.text ≠ some "\x7b" then
          .error .missingOpenCurlyBrace
        else .ok ⟨true, bc1, t1.dropLast, num⟩)
      else .ok ⟨bo, bc1, t1, num⟩ := by
    subst hstrip
    subst hbc
    rfl
  refine ⟨?_, ?_, rfl⟩
  · intro hk
    refine ⟨fun hlast => ?_, fun hlast => ?_⟩
    · rw [hpcb, if_pos hk, if_neg (by simp [hlast])]
    · rw [hpcb, if_pos hk, if_pos hlast]
  · intro hk
    rw [hpcb, if_neg (by simp [hk])]

/-- Witness for C3 at the line "} else {": the stripped token list is
the bare keyword "else" followed by a bare open brace. -/
theorem curly_brace_assembly_witness :
    processCurlyBraces ⟨false, false,
        [.lit "\x7d" true, .lit "else" true, .lit "\x7b" true], 7⟩ =
      .ok ⟨true, true, [.lit "else" true], 7⟩ :=
  ((curly_brace_assembly false false (.lit "\x7d" true)
    [.lit "else" true, .lit "\x7b" true]
    [.lit "else" true, .lit "\x7b" true] true rfl rfl 7).1 (by rfl)).1 (by rfl)

theorem mkExactNumber_val (q : Rat) : (mkExactNumber q).val = q := by
  unfold mkExactNumber
  split
  · next h =>
    show ((q.num : Int) : Rat) = q
    have := Rat.num_div_den q
    rw [h] at this
    simpa using this
  · rfl

theorem mkExactNumber_isFloat (q : Rat) :
    (mkExactNumber q).isFloat = false := by
  unfold mkExactNumber
  split <;> rfl

theorem multiplyNumbers_val (a b : Number) :
    (MultiplyNumbers a b).val = a.val * b.val := by
  unfold MultiplyNumbers
  split
  · rfl
  · rw [mkExactNumber_val]

theorem multiplyNumbers_isFloat (a b : Number) :
    (MultiplyNumbers a b).isFloat = (a.isFloat || b.isFloat) := by
  unfold MultiplyNumbers
  split
  · next h => rw [h]; rfl
  · next h =>
    rw [mkExactNumber_isFloat]
    simp only [Bool.not_eq_true] at h
    exact h.symm

theorem compareNumbers_zero_neg_iff (n : Number) :
    CompareNumbers n (.int 0) = -1 ↔ n.val < 0 := by
  unfold CompareNumbers
  have h0 : (Number.int 0).val = 0 := by simp [Number.val]
  rw [h0]
  by_cases h : n.val < 0
  · simp [h]
  · by_cases h2 : n.val = 0 <;> simp [h, h2]

/-- C4 counterexample: Abs applied to the inexact float 5/2 returns the
inexact float 5/2 itself — not an exact integer-valued Number as the
claim requires for abs. -/
theorem abs_float_stays_float :
    StdMath.Abs (.float (5 / 2)) = .float (5 / 2)
      ∧ (Number.float (5 / 2)).isExactInt = false
      ∧ (Number.float (5 / 2)).isFloat = true := by
  refine ⟨?_, rfl, rfl⟩
  rw [StdMath.Abs, if_neg]
  rw [compareNumbers_zero_neg_iff]
  norm_num [Number.val]

/-- C4 (amended): floor, ceil and round always return an exact
integer-valued Number even for a float input; abs preserves the
operand's representation kind and returns its absolute value, so abs of
an inexact float stays an inexact float. -/
theorem rounding_ops_exact_integer (f : Rat) (n : Number) :
    (StdMath.Floor f).isExactInt = true
      ∧ (StdMath.Ceil f).isExactInt = true
      ∧ (StdMath.Round f).isExactInt = true
      ∧ (StdMath.Abs n).isFloat = n.isFloat
      ∧ (StdMath.Abs n).val = |n.val| := by
  refine ⟨rfl, rfl, rfl, ?_, ?_⟩
  · unfold StdMath.Abs
    split
    · rw [multiplyNumbers_isFloat]
      simp [Number.isFloat]
    · rfl
  · unfold StdMath.Abs
    split
    · next h =>
      rw [compareNumbers_zero_neg_iff] at h
      rw [multiplyNumbers_val]
      have hv : (Number.int (-1)).val = -1 := by
        simp [Number.val]
      rw [hv, abs_of_neg h]
      ring
    · next h =>
      rw [compareNumbers_zero_neg_iff] at h
      rw [abs_of_nonneg (not_lt.mp h)]

/-- C8: with two integral operands the modulus is the true (Euclidean)
integer remainder — nonnegative, below the divisor's magnitude, and
congruent to the dividend; with any inexact or rational operand it is
the floored floating remainder a - floor(a/b)*b. The zero-divisor cases
(a run-time panic for integers, an IEEE NaN for floats) are outside the
claim's formulas and excluded by hypothesis. -/
theorem mod_conventions (a b : Number) :
    (∀ i1 i2, a.Int = some i1 → b.Int = some i2 → i2 ≠ 0 →
        StdMath.Mod a b = some (.int (i1 % i2))
          ∧ 0 ≤ i1 % i2 ∧ i1 % i2 < |i2| ∧ i2 ∣ i1 - i1 % i2)
      ∧ ((a.Int = none ∨ b.Int = none) → b.Float ≠ 0 →
          StdMath.Mod a b =
            some (.float (a.Float - (⌊a.Float / b.Float⌋ : Rat) * b.Float))) := by
  constructor
  · intro i1 i2 h1 h2 hz
    refine ⟨by simp [StdMath.Mod, h1, h2, hz], Int.emod_nonneg i1 hz, ?_, ?_⟩
    · rcases lt_or_gt_of_ne hz with hneg | hpos
      · have hb := Int.emod_lt_of_pos i1 (b := -i2) (by omega)
        rw [Int.emod_neg] at hb
        rw [abs_of_neg hneg]
        omega
      · have hb := Int.emod_lt_of_pos i1 hpos
        rw [abs_of_pos hpos]
        omega
    · exact ⟨i1 / i2, by rw [Int.emod_def]; ring⟩
  · intro hnone hz
    rcases ha : a.Int with _ | i1 <;> rcases hb : b.Int with _ | i2
    · simp [StdMath.Mod, ha, hb, hz]
    · simp [StdMath.Mod, ha, hb, hz]
    · simp [StdMath.Mod, ha, hb, hz]
    · rcases hnone with h | h
      · rw [ha] at h; exact Option.noConfusion h
      · rw [hb] at h; exact Option.noConfusion h

/-- Witness for C8: mod(-1.5, 2) follows the floored convention and
yields 0.5 (the truncated-toward-zero convention would yield -1.5). -/
theorem mod_conventions_witness :
    StdMath.Mod (.float (-3 / 2)) (.int 2) =
      some (.float ((-3 / 2 : Rat) -
        (⌊(-3 / 2 : Rat) / ((2 : Int) : Rat)⌋ : Rat) * ((2 : Int) : Rat)))
      ∧ ((-3 / 2 : Rat) -
        (⌊(-3 / 2 : Rat) / ((2 : Int) : Rat)⌋ : Rat) * ((2 : Int) : Rat)) =
          1 / 2 := by
  constructor
  · exact (mod_conventions (.float (-3 / 2)) (.int 2)).2 (Or.inl rfl)
      (by norm_num [Number.Float, Number.val])
  · have hfl : ⌊(-3 / 2 : Rat) / ((2 : Int) : Rat)⌋ = -1 := by
      rw [Int.floor_eq_iff]
      norm_num
    rw [hfl]
    norm_num

/-- C9: Subscript reports an out-of-bounds error naming the index
exactly when the index is negative or at least the list length, and
otherwise returns the list element at that position; the embedding is a
total function, so no input can make it panic. -/
theorem subscript_bounds (l : List String) (i : Int) :
    ((∃ e, StdOps.Subscript l i = .error e) ↔
        (i < 0 ∨ (l.length : Int) ≤ i))
      ∧ (i < 0 ∨ (l.length : Int) ≤ i →
          StdOps.Subscript l i =
            .error ("subscript out of bounds: " ++ toString i))
      ∧ (∀ _ : 0 ≤ i, ∀ h2 : i < (l.length : Int),
          StdOps.Subscript l i = .ok (l.get ⟨i.toNat, by omega⟩)) := by
  by_cases hc : i < 0 ∨ (l.length : Int) ≤ i
  · refine ⟨⟨fun _ => hc,
      fun _ => ⟨"subscript out of bounds: " ++ toString i, ?_⟩⟩,
      fun _ => ?_, fun h1 h2 => ?_⟩
    · rw [StdOps.Subscript, dif_pos hc]
    · rw [StdOps.Subscript, dif_pos hc]
    · omega
  · refine ⟨⟨fun he => ?_, fun h => absurd h hc⟩, fun h => absurd h hc,
      fun h1 h2 => ?_⟩
    · obtain ⟨e, he⟩ := he
      rw [StdOps.Subscript, dif_neg hc] at he
      exact Except.noConfusion he
    · rw [StdOps.Subscript, dif_neg hc]

/-- Witness for C9: subscript 1 of ["a", "b"] is "b"; subscript -1 is
the reported out-of-bounds error naming -1. -/
theorem subscript_bounds_witness :
    StdOps.Subscript ["a", "b"] 1 = .ok "b"
      ∧ StdOps.Subscript ["a", "b"] (-1) =
          .error "subscript out of bounds: -1" := by
  constructor
  · have h := (subscript_bounds ["a", "b"] 1).2.2 (by norm_num) (by norm_num)
    exact h.trans (by rfl)
  · have h := (subscript_bounds ["a", "b"] (-1)).2.1 (by norm_num)
    exact h.trans (by rfl)

/-- C10: Substr is total over all index inputs — for a non-empty string
and at most one trailing end argument the clamped bounds always lie in
range and a slice is returned; the empty string returns the empty
string immediately, even with two or more trailing end arguments; the
too-many-arguments error occurs only for non-empty strings. -/
theorem substr_total (s : List Char) (start : Int) (e : List Int) :
    StdString.Substr [] start e = .ok []
      ∧ (s ≠ [] → e.length ≤ 1 →
          ∃ st2 en2 : Nat, st2 ≤ en2 ∧ en2 ≤ s.length ∧
            StdString.Substr s start e =
              .ok ((s.drop st2).take (en2 - st2)))
      ∧ (s ≠ [] → 2 ≤ e.length →
          StdString.Substr s start e =
            .error "expected 2 or 3 arguments") := by
  have hlen0 : ∀ t : List Char, t ≠ [] → t.length ≠ 0 := by
    intro t ht h
    exact ht (List.length_eq_zero.mp h)
  refine ⟨rfl, ?_, ?_⟩
  · intro hs hle
    have hsl := hlen0 s hs
    rw [StdString.Substr, if_neg hsl, if_neg (by omega)]
    dsimp only
    set L := (s.length : Int) with hL
    set endv : Int := if e.length = 1 then e.headI else L with hendv
    set st1 : Int := if start < 0 then 0 else if start > L then L else start
      with hst
    have hb1 : 0 ≤ st1 ∧ st1 ≤ L := by rw [hst]; split_ifs <;> omega
    set en1 : Int := if endv < st1 then st1 else if endv > L then L else endv
      with hen
    have hb2 : st1 ≤ en1 ∧ en1 ≤ L := by rw [hen]; split_ifs <;> omega
    refine ⟨st1.toNat, st1.toNat + (en1 - st1).toNat, by omega, by omega, ?_⟩
    congr 2
    omega
  · intro hs h2
    have hsl := hlen0 s hs
    rw [StdString.Substr, if_neg hsl, if_pos (by omega)]

/-- Witness for C10: the empty string with three end arguments returns
the empty string; a non-empty string with clamped bounds returns a
slice; two trailing end arguments on a non-empty string error. -/
theorem substr_total_witness :
    StdString.Substr [] 5 [3, 4, 5] = .ok []
      ∧ (∃ st2 en2 : Nat, st2 ≤ en2 ∧ en2 ≤ ['a', 'b', 'c'].length ∧
          StdString.Substr ['a', 'b', 'c'] (-5) [99] =
            .ok ((['a', 'b', 'c'].drop st2).take (en2 - st2)))
      ∧ StdString.Substr ['a', 'b', 'c'] 0 [1, 2] =
          .error "expected 2 or 3 arguments" :=
  ⟨(substr_total [] 5 [3, 4, 5]).1,
   (substr_total ['a', 'b', 'c'] (-5) [99]).2.1 (by simp) (by simp),
   (substr_total ['a', 'b', 'c'] 0 [1, 2]).2.2 (by simp) (by simp)⟩

theorem char_eq_of_toNat {a b : Char} (h : a.toNat = b.toNat) : a = b :=
  Char.eq_of_val_eq (UInt32.ext h)

theorem char_toNat_inj {a b : Char} : a = b ↔ a.toNat = b.toNat :=
  ⟨fun h => h ▸ rfl, char_eq_of_toNat⟩

theorem isOctalDigit_bounds {c : Char} (h : isOctalDigit c = true) :
    48 ≤ c.toNat ∧ c.toNat ≤ 55 := by
  simp only [isOctalDigit, Bool.and_eq_true, decide_eq_true_eq] at h
  obtain ⟨h1, h2⟩ := h
  have h1' : 48 ≤ c.toNat := h1
  have h2' : c.toNat < 56 := h2
  omega

theorem goIsDigit_of_octal {c : Char} (h : isOctalDigit c = true) :
    goIsDigit c = true := by
  obtain ⟨h1, h2⟩ := isOctalDigit_bounds h
  rw [goIsDigit, List.any_eq_true]
  refine ⟨(0x30, 0x39), by simp [ndRanges], ?_⟩
  simp only [Bool.and_eq_true, decide_eq_true_eq]
  exact ⟨by omega, by omega⟩

theorem escape_octal_entry (c : Char) (cs : List Char)
    (h : isOctalDigit c = true) :
    readEscapeSequence (c :: cs) = readOctalEscape (c :: cs) := by
  obtain ⟨h1, h2⟩ := isOctalDigit_bounds h
  have hpt : c ∉ passthroughChars := by
    intro hmem
    simp only [passthroughChars, List.mem_cons, List.not_mem_nil,
      or_false] at hmem
    rcases hmem with rfl | rfl | rfl | rfl | rfl | rfl | rfl <;> simp_all
  have hdig := goIsDigit_of_octal h
  have hne : ∀ d : Char, 55 < d.toNat → ¬(c = d) := by
    intro d hd hc
    rw [char_toNat_inj] at hc
    omega
  rw [readEscapeSequence, if_neg hpt,
    if_neg (hne 'a' (by decide)), if_neg (hne 'b' (by decide)),
    if_neg (hne 'f' (by decide)), if_neg (hne 'n' (by decide)),
    if_neg (hne 'r' (by decide)), if_neg (hne 't' (by decide)),
    if_neg (hne 'v' (by decide)), if_neg (hne 'x' (by decide)),
    if_neg (hne 'u' (by decide)), if_neg (hne 'U' (by decide)),
    if_neg]
  simp only [Bool.or_eq_true, Bool.not_eq_true', decide_eq_true_eq, not_or,
    hdig]
  refine ⟨⟨by simp, ?_⟩, ?_⟩
  · intro hc
    rw [char_toNat_inj] at hc
    have : ('8').toNat = 56 := rfl
    omega
  · intro hc
    rw [char_toNat_inj] at hc
    have : ('9').toNat = 57 := rfl
    omega

theorem escape_invalid_char (c : Char) (cs : List Char)
    (hd : goIsDigit c = false) (hpt : c ∉ passthroughChars)
    (hl : c ∉ (['a', 'b', 'f', 'n', 'r', 't', 'v', 'x', 'u', 'U'] :
      List Char)) :
    readEscapeSequence (c :: cs) = .error (.invalidEscape c) := by
  simp only [List.mem_cons, List.not_mem_nil, or_false, not_or] at hl
  obtain ⟨ha, hb, hf, hn, hr, ht, hv, hx, hu, hU⟩ := hl
  rw [readEscapeSequence, if_neg hpt, if_neg ha, if_neg hb, if_neg hf,
    if_neg hn, if_neg hr, if_neg ht, if_neg hv, if_neg hx, if_neg hu,
    if_neg hU, if_pos]
  simp [hd]

theorem escape_nonascii_digit (c : Char) (cs : List Char)
    (hd : goIsDigit c = true) (h9 : '9' < c) :
    readEscapeSequence (c :: cs) = .error .escapeUnderflow := by
  have h9' : 57 < c.toNat := h9
  have hne : ∀ d : Char, goIsDigit d = false → ¬(c = d) := by
    intro d hdd hc
    rw [hc] at hd
    rw [hd] at hdd
    exact Bool.noConfusion hdd
  have hpt : c ∉ passthroughChars := by
    intro hmem
    simp only [passthroughChars, List.mem_cons, List.not_mem_nil,
      or_false] at hmem
    rcases hmem with rfl | rfl | rfl | rfl | rfl | rfl | rfl <;>
      exact absurd hd (by decide)
  have hoct : isOctalDigit c = false := by
    have : ¬(c < '8') := by
      show ¬(c.toNat < 56)
      omega
    simp [isOctalDigit, this]
  rw [readEscapeSequence, if_neg hpt,
    if_neg (hne 'a' (by decide)), if_neg (hne 'b' (by decide)),
    if_neg (hne 'f' (by decide)), if_neg (hne 'n' (by decide)),
    if_neg (hne 'r' (by decide)), if_neg (hne 't' (by decide)),
    if_neg (hne 'v' (by decide)), if_neg (hne 'x' (by decide)),
    if_neg (hne 'u' (by decide)), if_neg (hne 'U' (by decide)),
    if_neg]
  · rw [readOctalEscape]
    have htake : (c :: cs).take 3 = c :: cs.take 2 := rfl
    rw [htake, List.takeWhile_cons_of_neg (by simp [hoct])]
    rfl
  · simp only [Bool.or_eq_true, Bool.not_eq_true', decide_eq_true_eq, not_or,
      hd]
    refine ⟨⟨by simp, ?_⟩, ?_⟩
    · intro hc
      rw [char_toNat_inj] at hc
      have : ('8').toNat = 56 := rfl
      omega
    · intro hc
      rw [char_toNat_inj] at hc
      have : ('9').toNat = 57 := rfl
      omega

/-- C6 counterexample: the escaped character U+0663 (ARABIC-INDIC DIGIT
THREE) is covered by the claim's "any other escaped character" clause,
but because unicode.IsDigit accepts every Unicode decimal digit, the
decoder enters the octal path and — since U+0663 is not an octal digit
0-7 — fails with the underflow error, not the invalid-escape error the
claim requires. -/
theorem unicode_digit_escape_not_invalid :
    readEscapeSequence [Char.ofNat 0x663] = .error .escapeUnderflow
      ∧ readEscapeSequence [Char.ofNat 0x663] ≠
          .error (.invalidEscape (Char.ofNat 0x663)) := by
  constructor
  · rfl
  · intro h
    rw [show readEscapeSequence [Char.ofNat 0x663] =
      .error .escapeUnderflow from rfl] at h
    simp at h

/-- C6 (amended): the decoder maps each backslash sequence per the fixed
table — passthrough characters, the seven letter codes, fixed-width hex
escapes via x/u/U that fail with the underflow error when the input ends
early, and a leading octal digit 0-7 entering the 1-3 digit octal
reader; an escaped character not in the table and not a Unicode decimal
digit is an invalid-escape error, while a non-ASCII Unicode decimal
digit instead enters the octal path and fails with the underflow error;
x41 and octal 101 decode to A, n to a newline, an escaped 8 is an
invalid escape, and x4 at end of input underflows. -/
theorem escape_decoder_table (c : Char) (cs : List Char) (n : Nat) :
    (c ∈ passthroughChars → readEscapeSequence (c :: cs) = .ok (c, cs))
      ∧ (cs.length < n →
          readNumericEscape n cs = .error .escapeUnderflow)
      ∧ (isOctalDigit c = true →
          readEscapeSequence (c :: cs) = readOctalEscape (c :: cs))
      ∧ (goIsDigit c = false → c ∉ passthroughChars →
          c ∉ (['a', 'b', 'f', 'n', 'r', 't', 'v', 'x', 'u', 'U'] :
            List Char) →
          readEscapeSequence (c :: cs) = .error (.invalidEscape c))
      ∧ (goIsDigit c = true → '9' < c →
          readEscapeSequence (c :: cs) = .error .escapeUnderflow)
      ∧ readEscapeSequence [] = .error .escapeUnderflow
      ∧ readEscapeSequence ('a' :: cs) = .ok ('\x07', cs)
      ∧ readEscapeSequence ('b' :: cs) = .ok ('\x08', cs)
      ∧ readEscapeSequence ('f' :: cs) = .ok ('\x0C', cs)
      ∧ readEscapeSequence ('n' :: cs) = .ok ('\n', cs)
      ∧ readEscapeSequence ('r' :: cs) = .ok ('\x0D', cs)
      ∧ readEscapeSequence ('t' :: cs) = .ok ('\t', cs)
      ∧ readEscapeSequence ('v' :: cs) = .ok ('\x0B', cs)
      ∧ readEscapeSequence ('x' :: cs) = readNumericEscape 2 cs
      ∧ readEscapeSequence ('u' :: cs) = readNumericEscape 4 cs
      ∧ readEscapeSequence ('U' :: cs) = readNumericEscape 8 cs
      ∧ readEscapeSequence ['x', '4', '1'] = .ok ('A', [])
      ∧ readEscapeSequence ['1', '0', '1'] = .ok ('A', [])
      ∧ readEscapeSequence ['n'] = .ok ('\n', [])
      ∧ readEscapeSequence ['8'] = .error (.invalidEscape '8')
      ∧ readEscapeSequence ['x', '4'] = .error .escapeUnderflow := by
  refine ⟨?_, ?_, escape_octal_entry c cs, escape_invalid_char c cs,
    escape_nonascii_digit c cs, rfl, rfl, rfl, rfl, rfl, rfl, rfl, rfl,
    rfl, rfl, rfl, rfl, rfl, rfl, rfl, rfl⟩
  · intro hmem
    rw [readEscapeSequence, if_pos hmem]
  · intro hlt
    rw [readNumericEscape, if_pos hlt]

/-- Witness for C6: a backslash passthrough, a hex escape underflow, an
octal entry, an invalid escape, and a non-ASCII Unicode digit (U+0660)
taking the octal path to the underflow error. -/
theorem escape_decoder_table_witness :
    readEscapeSequence ['\\'] = .ok ('\\', [])
      ∧ readNumericEscape 2 ['4'] = .error .escapeUnderflow
      ∧ readEscapeSequence ['1', '0', '1'] = readOctalEscape ['1', '0', '1']
      ∧ readEscapeSequence ['!'] = .error (.invalidEscape '!')
      ∧ readEscapeSequence [Char.ofNat 0x660] = .error .escapeUnderflow :=
  ⟨(escape_decoder_table '\\' [] 0).1 (by decide),
   (escape_decoder_table 'q' ['4'] 2).2.1 (by decide),
   (escape_decoder_table '1' ['0', '1'] 0).2.2.1 (by decide),
   (escape_decoder_table '!' [] 0).2.2.2.1 (by decide) (by decide)
     (by decide),
   (escape_decoder_table (Char.ofNat 0x660) [] 0).2.2.2.2.1 (by decide)
     (by decide)⟩

theorem readNumericEscape_rest {k : Nat} {l : List Char} {e : Char}
    {r : List Char} (h : readNumericEscape k l = .ok (e, r)) :
    r = l.drop k := by
  rw [readNumericEscape] at h
  split_ifs at h
  rcases hg : goParseUint 16 (k * 4) (l.take k) with _ | v <;> rw [hg] at h
  · exact absurd h (by simp)
  · simp only [Except.ok.injEq, Prod.mk.injEq] at h
    exact h.2.symm

theorem readOctalEscape_rest {l : List Char} {e : Char} {r : List Char}
    (h : readOctalEscape l = .ok (e, r)) :
    r = l.drop ((l.take 3).takeWhile isOctalDigit).length := by
  rw [readOctalEscape] at h
  split_ifs at h
  rcases hg : goParseUint 8 8 ((l.take 3).takeWhile isOctalDigit)
    with _ | v <;> rw [hg] at h
  · exact absurd h (by simp)
  · simp only [Except.ok.injEq, Prod.mk.injEq] at h
    exact h.2.symm

theorem readEscapeSequence_suffix {l : List Char} {e : Char}
    {r : List Char} (h : readEscapeSequence l = .ok (e, r)) :
    ∃ p, l = p ++ r := by
  match l with
  | [] => exact absurd h (by simp [readEscapeSequence])
  | c :: cs =>
    have direct : ∀ x : Char,
        (Except.ok (x, cs) : Except Err (Char × List Char)) = .ok (e, r) →
        ∃ p, c :: cs = p ++ r := by
      intro x hx
      simp only [Except.ok.injEq, Prod.mk.injEq] at hx
      exact ⟨[c], by rw [← hx.2, List.singleton_append]⟩
    have hnum : ∀ k, readNumericEscape k cs = .ok (e, r) →
        ∃ p, c :: cs = p ++ r := by
      intro k hk
      rw [readNumericEscape_rest hk]
      exact ⟨c :: cs.take k, by simp⟩
    rw [readEscapeSequence] at h
    by_cases h1 : c ∈ passthroughChars
    · rw [if_pos h1] at h; exact direct _ h
    rw [if_neg h1] at h
    by_cases h2 : c = 'a'
    · rw [if_pos h2] at h; exact direct _ h
    rw [if_neg h2] at h
    by_cases h3 : c = 'b'
    · rw [if_pos h3] at h; exact direct _ h
    rw [if_neg h3] at h
    by_cases h4 : c = 'f'
    · rw [if_pos h4] at h; exact direct _ h
    rw [if_neg h4] at h
    by_cases h5 : c = 'n'
    · rw [if_pos h5] at h; exact direct _ h
    rw [if_neg h5] at h
    by_cases h6 : c = 'r'
    · rw [if_pos h6] at h; exact direct _ h
    rw [if_neg h6] at h
    by_cases h7 : c = 't'
    · rw [if_pos h7] at h; exact direct _ h
    rw [if_neg h7] at h
    by_cases h8 : c = 'v'
    · rw [if_pos h8] at h; exact direct _ h
    rw [if_neg h8] at h
    by_cases h9 : c = 'x'
    · rw [if_pos h9] at h; exact hnum 2 h
    rw [if_neg h9] at h
    by_cases h10 : c = 'u'
    · rw [if_pos h10] at h; exact hnum 4 h
    rw [if_neg h10] at h
    by_cases h11 : c = 'U'
    · rw [if_pos h11] at h; exact hnum 8 h
    rw [if_neg h11] at h
    by_cases h12 : (!goIsDigit c || c = '8' || c = '9') = true
    · rw [if_pos h12] at h
      exact absurd h (by simp)
    · rw [if_neg h12] at h
      rw [readOctalEscape_rest h]
      refine ⟨(c :: cs).take (((c :: cs).take 3).takeWhile
        isOctalDigit).length, ?_⟩
      rw [List.take_append_drop]

theorem readBareStringAux_consumed (fuel : Nat) :
    ∀ l s b r, readBareStringAux fuel l = .ok (s, b, r) →
      ∃ p, l = p ++ r ∧ (b = true ↔ '\\' ∉ p) := by
  induction fuel with
  | zero =>
    intro l s b r h
    exact absurd h (by simp [readBareStringAux])
  | succ fuel ih =>
    intro l s b r h
    match l with
    | [] =>
      rw [readBareStringAux] at h
      simp only [Except.ok.injEq, Prod.mk.injEq] at h
      obtain ⟨-, hb, hr⟩ := h
      exact ⟨[], by simp [← hr], by simp [← hb]⟩
    | c :: cs =>
      rw [readBareStringAux] at h
      by_cases h1 : (goIsSpace c || c = ')') = true
      · rw [if_pos h1] at h
        simp only [Except.ok.injEq, Prod.mk.injEq] at h
        obtain ⟨-, hb, hr⟩ := h
        exact ⟨[], by simp [← hr], by simp [← hb]⟩
      · rw [if_neg h1] at h
        by_cases h2 : c = '\\'
        · rw [if_pos h2] at h
          split at h
          · exact absurd h (by simp)
          next seq rest he =>
            split at h
            · exact absurd h (by simp)
            next s2 b2 r2 hb2 =>
              simp only [Except.ok.injEq, Prod.mk.injEq] at h
              obtain ⟨-, hb, hr⟩ := h
              obtain ⟨p1, hp1⟩ := readEscapeSequence_suffix he
              obtain ⟨p2, hp2, -⟩ := ih rest s2 b2 r2 hb2
              subst h2
              refine ⟨'\\' :: (p1 ++ p2), ?_, ?_⟩
              · rw [hp1, hp2, ← hr]
                simp
              · exact ⟨fun hbt => absurd hbt (by rw [← hb]; simp),
                  fun hnot => absurd (List.mem_cons_self _ _) hnot⟩
        · rw [if_neg h2] at h
          split at h
          · exact absurd h (by simp)
          next s2 b2 r2 hb2 =>
            simp only [Except.ok.injEq, Prod.mk.injEq] at h
            obtain ⟨-, hb, hr⟩ := h
            obtain ⟨p2, hp2, hiff2⟩ := ih cs s2 b2 r2 hb2
            refine ⟨c :: p2, ?_, ?_⟩
            · rw [hp2, ← hr]
              simp
            · rw [← hb, hiff2]
              exact ⟨fun hn hm => (List.mem_cons.mp hm).elim
                  (fun heq => absurd heq.symm h2) hn,
                fun hn hm2 => hn (List.mem_cons_of_mem c hm2)⟩

/-- C7: a bare-string read returns bare = true exactly when the consumed
prefix contains no backslash — i.e. when the escape decoder was never
invoked — and every token built by readNextToken from a quote or an
open paren (quoted strings and groups) carries bare = false. -/
theorem token_bare_flag :
    (∀ fuel l s b r, readBareStringAux fuel l = .ok (s, b, r) →
        ∃ p, l = p ++ r ∧ (b = true ↔ '\\' ∉ p))
      ∧ (∀ fuel l tok r c, readNextToken fuel l = (.ok tok, r) →
          l.head? = some c → (c = '"' ∨ c = '\'' ∨ c = '(') →
          tok.bare = false) := by
  refine ⟨fun fuel => readBareStringAux_consumed fuel, ?_⟩
  intro fuel l tok r c h hhead hc
  cases fuel with
  | zero => simp [readNextToken] at h
  | succ fuel =>
    cases l with
    | nil => simp at hhead
    | cons c' cs =>
      have hc' : c' = c := by simpa using hhead
      subst hc'
      rw [readNextToken] at h
      rcases hc with rfl | rfl | rfl
      · rw [if_pos rfl] at h
        rcases hq : readQuotedString fuel '"' cs with e1 | ⟨s1, r1⟩ <;>
          rw [hq] at h
        · simp at h
        · simp only [Prod.mk.injEq, Except.ok.injEq] at h
          rw [← h.1]
          rfl
      · rw [if_neg (by decide), if_pos rfl] at h
        rcases hq : readQuotedString fuel '\'' cs with e1 | ⟨s1, r1⟩ <;>
          rw [hq] at h
        · simp at h
        · simp only [Prod.mk.injEq, Except.ok.injEq] at h
          rw [← h.1]
          rfl
      · rw [if_neg (by decide), if_neg (by decide), if_pos rfl] at h
        rcases hg : readNestedCommand fuel cs with ⟨e1 | toks, rest⟩ <;>
          rw [hg] at h
        · simp at h
        · simp only [Prod.mk.injEq, Except.ok.injEq] at h
          rw [← h.1]
          rfl

/-- Witness for C7: the bare string a\n has bare = false with the whole
input consumed (its prefix contains the backslash), and the quoted empty
string token from a double quote has bare = false. -/
theorem token_bare_flag_witness :
    (∃ p, (['a', '\\', 'n'] : List Char) = p ++ [] ∧
        (false = true ↔ '\\' ∉ p))
      ∧ (Token.lit "" false).bare = false :=
  ⟨token_bare_flag.1 5 ['a', '\\', 'n'] ['a', '\n'] false [] (by rfl),
   token_bare_flag.2 5 ['"', '"'] (.lit "" false) [] '"' (by rfl) (by rfl)
     (Or.inl rfl)⟩

end Pragmash
